import Mathlib

/-! # traceroute-for-android: the JNI wrapper around the traceroute engine

A shallow embedding of `library/src/main/jni/traceroute/traceroute-lib.c`
and of the option table in `library/src/main/jni/libsupp/tcp.h`.

The wrapper overrides `printf`, `fprintf`, `vfprintf`, `perror` and `exit`
for the engine, runs the engine entry point `exec` on a worker thread and
hands the engine's status back to the Java caller.  The state of the
process is passed explicitly; a computation on the worker thread either
returns, ends its thread through `pthread_exit`, or reaches an operation
whose behaviour C leaves undefined.
-/

namespace Traceroute

/-! ## Constants -/

/-- The constant `#define OUTPUT_LENGTH 10000`. -/
def OUTPUT_LENGTH : Nat := 10000

/-- The constant `#define TCPOPT_EOL 0`. -/
def TCPOPT_EOL : Nat := 0
/-- The constant `#define TCPOPT_NOP 1`. -/
def TCPOPT_NOP : Nat := 1
/-- The constant `#define TCPOPT_MAXSEG 2`. -/
def TCPOPT_MAXSEG : Nat := 2
/-- The constant `#define TCPOLEN_MAXSEG 4`. -/
def TCPOLEN_MAXSEG : Nat := 4
/-- The constant `#define TCPOPT_WINDOW 3`. -/
def TCPOPT_WINDOW : Nat := 3
/-- The constant `#define TCPOLEN_WINDOW 3`. -/
def TCPOLEN_WINDOW : Nat := 3
/-- The constant `#define TCPOPT_SACK_PERMITTED 4`. -/
def TCPOPT_SACK_PERMITTED : Nat := 4
/-- The constant `#define TCPOLEN_SACK_PERMITTED 2`. -/
def TCPOLEN_SACK_PERMITTED : Nat := 2
/-- The constant `#define TCPOPT_SACK 5`. -/
def TCPOPT_SACK : Nat := 5
/-- The constant `#define TCPOPT_TIMESTAMP 8`. -/
def TCPOPT_TIMESTAMP : Nat := 8
/-- The constant `#define TCPOLEN_TIMESTAMP 10`. -/
def TCPOLEN_TIMESTAMP : Nat := 10

/-! ## Data model -/

/-- The bytes of a C string, its terminating NUL left out. -/
abbrev Text := List Nat

/-- What the Java callback object receives: `clearResult()` and
`appendResult(String)` invocations, in the order they are made. -/
inductive CallbackEvent where
  | clearResult
  | appendResult (message : Text)
  deriving DecidableEq, Repr

/-- One line written through `__android_log_print`; one constructor for each
`LOGD`/`LOGE` call site of the wrapper. -/
inductive LogLine where
  | startTraceroute
  | attachFailed
  | commandSize (size : Nat)
  | command (i : Nat) (arg : Text)
  | cantFindClearResult
  | cantFindAppendResult
  | errorFprintf (buffer : Text)
  | errorVfprintf (buffer : Text)
  | errorPerror (msg : Text)
  | errorExit (status : Int)
  | executeResult (status : Int)
  | finishTraceroute (status : Int)
  deriving DecidableEq, Repr

/-- The Java object `jthis` the callbacks are looked up on: what
`GetMethodID` finds in its class. -/
structure JObject where
  hasClearResult : Bool
  hasAppendResult : Bool
  deriving DecidableEq, Repr

/-- A `FILE *` argument; the overridden functions never look at it. -/
inductive Stream where
  | stdout
  | stderr
  | file (fd : Nat)
  deriving DecidableEq, Repr

/-- The globals of the wrapper and what the outside world has observed.
`j_java_cls` and `j_argvs` are `none` while they hold no live global
reference; `attached` tells whether the worker thread is attached to the JVM,
so that `JNU_GetEnv` yields an environment; `execCalls` records the
arguments of every call of the engine entry point `exec`. -/
structure State where
  j_java_cls : Option JObject
  j_argvs : Option (List Text)
  exec_status : Int
  attached : Bool
  callback : List CallbackEvent
  log : List LogLine
  execCalls : List (Nat × List (Option Text))
  deriving DecidableEq, Repr

/-- The state when the library is loaded: `int exec_status = -3;`. -/
def State.initial : State :=
  { j_java_cls := none, j_argvs := none, exec_status := -3, attached := false,
    callback := [], log := [], execCalls := [] }

/-- Why a computation on the worker thread stopped without returning. -/
inductive Halt where
  | threadExit
  | undefinedBehaviour
  deriving DecidableEq, Repr

/-- The outcome of a computation: it returned `value`, or it stopped at
state `st`. -/
inductive Run (α : Type) where
  | done (value : α) (st : State)
  | halt (why : Halt) (st : State)
  deriving Repr

namespace Run

/-- Sequencing: the continuation runs only after a normal return. -/
def bind {α β : Type} (r : Run α) (k : α → State → Run β) : Run β :=
  match r with
  | done a st => k a st
  | halt why st => halt why st

/-- The state at the return, or at the point where the computation stopped. -/
def state {α : Type} : Run α → State
  | done _ st => st
  | halt _ st => st

/-- The returned value, when the computation returned. -/
def value? {α : Type} : Run α → Option α
  | done a _ => some a
  | halt _ _ => none

end Run

/-- The macro family `LOGD`/`LOGE`: one more line in the diagnostic log. -/
def LOG (st : State) (line : LogLine) : State :=
  { st with log := st.log ++ [line] }

/-! ## libc, as far as the wrapper uses it -/

/-- The expansion of a format string with its arguments: the bytes the full
message has, or an encoding error. -/
inductive Formatted where
  | text (bytes : Text)
  | encodingError
  deriving DecidableEq, Repr

/-- A heap buffer: each byte is `none` while it is indeterminate. -/
abbrev Buffer := List (Option Nat)

/-- The call `malloc(n)`: `n` indeterminate bytes. -/
def malloc (n : Nat) : Buffer := List.replicate n none

/-- The call `memset(buf, c, n)`: the first `n` bytes become `c`. -/
def memset (buf : Buffer) (c : Nat) (n : Nat) : Buffer :=
  List.replicate n (some (c % 256)) ++ buf.drop n

/-- The call `vsnprintf(buf, size, fmt, args)`: at most `size - 1` bytes of
the message and a NUL are stored; the result is the length the full message
has, or a negative value on an encoding error. -/
def vsnprintf (buf : Buffer) (size : Nat) (fmt : Formatted) : Buffer × Int :=
  match fmt with
  | .encodingError => (buf, -1)
  | .text bytes =>
    if size = 0 then (buf, (bytes.length : Int))
    else
      let out : Buffer := (bytes.take (size - 1)).map some ++ [some 0]
      (out ++ buf.drop out.length, (bytes.length : Int))

/-- The assignment `buf[i] = c`; `none` when index `i` is outside the
buffer. -/
def storeChar (buf : Buffer) (i : Int) (c : Nat) : Option Buffer :=
  if 0 ≤ i ∧ i < (buf.length : Int) then some (buf.set i.toNat (some c)) else none

/-- Reading a buffer as a C string: the bytes before the first NUL; `none`
when an indeterminate byte or the end of the buffer comes first. -/
def cString : Buffer → Option Text
  | [] => none
  | none :: _ => none
  | some b :: rest => if b = 0 then some [] else (cString rest).map (b :: ·)

/-! ## The wrapper -/

/-- The function `JNU_GetEnv`: the JNI environment of the current thread, present only
while the thread is attached. -/
def JNU_GetEnv (st : State) : Option Unit :=
  if st.attached then some () else none

/-- The function `call_java_clear_result`: the method `clearResult` is looked up
on the class of `j_java_cls` and called; when it is not found, a line is
logged instead. -/
def call_java_clear_result (st : State) : Run Unit :=
  match JNU_GetEnv st with
  | none => .halt .undefinedBehaviour st
  | some _ =>
    match st.j_java_cls with
    | none => .halt .undefinedBehaviour st
    | some obj =>
      if obj.hasClearResult = false then
        .done () (LOG st .cantFindClearResult)
      else
        .done () { st with callback := st.callback ++ [.clearResult] }

/-- The function `call_java_append_result`: the method `appendResult` is looked
up on the class of `j_java_cls` and called with `text` as a Java string; when
it is not found, a line is logged instead. -/
def call_java_append_result (text : Text) (st : State) : Run Unit :=
  match JNU_GetEnv st with
  | none => .halt .undefinedBehaviour st
  | some _ =>
    match st.j_java_cls with
    | none => .halt .undefinedBehaviour st
    | some obj =>
      if obj.hasAppendResult = false then
        .done () (LOG st .cantFindAppendResult)
      else
        .done () { st with callback := st.callback ++ [.appendResult text] }

/-- The overridden `printf`: the message is formatted into a fresh buffer of
`OUTPUT_LENGTH` bytes, a NUL is stored at index `cnt`, and the buffer is handed
to `call_java_append_result`; the result is always 1. -/
def printf (fmt : Formatted) (st : State) : Run Int :=
  let buffer := malloc OUTPUT_LENGTH
  let buffer := memset buffer OUTPUT_LENGTH 0
  let (buffer, cnt) := vsnprintf buffer OUTPUT_LENGTH fmt
  match storeChar buffer cnt 0 with
  | none => .halt .undefinedBehaviour st
  | some buffer =>
    match cString buffer with
    | none => .halt .undefinedBehaviour st
    | some text => (call_java_append_result text st).bind fun _ st => .done 1 st

/-- The overridden `fprintf`: as `printf`, but the buffer goes to the log; the
stream is ignored. -/
def fprintf (_fp : Stream) (fmt : Formatted) (st : State) : Run Int :=
  let buffer := malloc OUTPUT_LENGTH
  let buffer := memset buffer OUTPUT_LENGTH 0
  let (buffer, cnt) := vsnprintf buffer OUTPUT_LENGTH fmt
  match storeChar buffer cnt 0 with
  | none => .halt .undefinedBehaviour st
  | some buffer =>
    match cString buffer with
    | none => .halt .undefinedBehaviour st
    | some text => .done 1 (LOG st (.errorFprintf text))

/-- The overridden `vfprintf`: as `fprintf`, with its own log line. -/
def vfprintf (_fp : Stream) (fmt : Formatted) (st : State) : Run Int :=
  let buffer := malloc OUTPUT_LENGTH
  let buffer := memset buffer OUTPUT_LENGTH 0
  let (buffer, cnt) := vsnprintf buffer OUTPUT_LENGTH fmt
  match storeChar buffer cnt 0 with
  | none => .halt .undefinedBehaviour st
  | some buffer =>
    match cString buffer with
    | none => .halt .undefinedBehaviour st
    | some text => .done 1 (LOG st (.errorVfprintf text))

/-- The overridden `perror`. -/
def perror (msg : Text) (st : State) : Run Unit :=
  .done () (LOG st (.errorPerror msg))

/-- The overridden `exit`: detaches the thread, sets `exec_status = -3`, logs
the status and ends the thread with `pthread_exit`; it never returns. -/
def exit {α : Type} (status : Int) (st : State) : Run α :=
  let st := { st with attached := false }
  let st := { st with exec_status := -3 }
  let st := LOG st (.errorExit status)
  .halt .threadExit st

/-! ## The engine

`exec` is defined in the engine's sources, which the wrapper only calls.  A
terminating run of the engine is the sequence of calls it makes to the
overridden functions, ended by a `return` from `exec` or by a call of
`exit`. -/

/-- A call of one of the overridden output functions. -/
inductive LibCall where
  | printf (fmt : Formatted)
  | fprintf (fp : Stream) (fmt : Formatted)
  | vfprintf (fp : Stream) (fmt : Formatted)
  | perror (msg : Text)
  deriving DecidableEq, Repr

/-- How a run of the engine ends. -/
inductive EngineEnd where
  | ret (status : Int)
  | exit (status : Int)
  deriving DecidableEq, Repr

/-- One run of the engine. -/
structure EngineRun where
  calls : List LibCall
  fin : EngineEnd
  deriving DecidableEq, Repr

/-- The engine: its run for each `argc` and `argv`. -/
abbrev Engine := Nat → List (Option Text) → EngineRun

/-- One call, dispatched to the wrapper's override. -/
def LibCall.run (c : LibCall) (st : State) : Run Unit :=
  match c with
  | .printf fmt => (Traceroute.printf fmt st).bind fun _ st => .done () st
  | .fprintf fp fmt => (Traceroute.fprintf fp fmt st).bind fun _ st => .done () st
  | .vfprintf fp fmt => (Traceroute.vfprintf fp fmt st).bind fun _ st => .done () st
  | .perror msg => Traceroute.perror msg st

/-- The calls of a run, in order. -/
def runCalls : List LibCall → State → Run Unit
  | [], st => .done () st
  | c :: rest, st => (c.run st).bind fun _ st => runCalls rest st

/-- The engine entry point `exec(argc, argv)`. -/
def exec (engine : Engine) (argc : Nat) (argv : List (Option Text)) (st : State) : Run Int :=
  let st := { st with execCalls := st.execCalls ++ [(argc, argv)] }
  (runCalls (engine argc argv).calls st).bind fun _ st =>
    match (engine argc argv).fin with
    | .ret status => .done status st
    | .exit status => exit status st

/-- The loop `for (i = 0; i < size; i++)` of `do_execute`: element `i` of
`j_argvs` is stored in `argv[i]` and logged. -/
def argvLoop (j_argvs : List Text) (size : Nat) (i : Nat) (argv : List (Option Text))
    (st : State) : Run (List (Option Text)) :=
  if i < size then
    match j_argvs[i]? with
    | none => .halt .undefinedBehaviour st
    | some command =>
      let argv := argv.set i (some command)
      let st := LOG st (.command i command)
      argvLoop j_argvs size (i + 1) argv st
  else .done argv st
termination_by size - i

/-- The thread body `do_execute`; `attachStatus` is what
`AttachCurrentThread` returns. -/
def do_execute (attachStatus : Int) (engine : Engine) (st : State) : Run Unit :=
  if attachStatus ≠ 0 then
    .done () (LOG st .attachFailed)
  else
    let st := { st with attached := true }
    match JNU_GetEnv st, st.j_argvs with
    | none, _ => .halt .undefinedBehaviour st
    | some _, none => .halt .undefinedBehaviour st
    | some _, some j_argvs =>
      let size := j_argvs.length
      let st := LOG st (.commandSize size)
      (argvLoop j_argvs size 0 (List.replicate size none) st).bind fun argv st =>
      (call_java_clear_result st).bind fun _ st =>
      (exec engine size argv st).bind fun status st =>
      let st := { st with exec_status := status }
      let st := LOG st (.executeResult st.exec_status)
      let st := { st with attached := false }
      .done () st

/-- The call `pthread_join` on the worker: the caller goes on once the thread
body returned or the thread ended itself with `pthread_exit`. -/
def pthread_join (worker : Run Unit) : Run Unit :=
  match worker with
  | .done _ st => .done () st
  | .halt .threadExit st => .done () st
  | .halt .undefinedBehaviour st => .halt .undefinedBehaviour st

/-- The native method `Java_com_wandroid_traceroute_TraceRoute_execute`.  The
thread made by `pthread_create` starts detached from the JVM. -/
def Java_com_wandroid_traceroute_TraceRoute_execute (attachStatus : Int) (engine : Engine)
    (jthis : JObject) (jarray : List Text)
    (st : State) : Run Int :=
  let st := LOG st .startTraceroute
  let st := { st with j_java_cls := some jthis }
  let st := { st with j_argvs := some jarray }
  (pthread_join (do_execute attachStatus engine { st with attached := false })).bind fun _ st =>
  let st := { st with j_java_cls := none }
  let st := { st with j_argvs := none }
  let st := LOG st (.finishTraceroute st.exec_status)
  .done st.exec_status st

/-! ## Notions the statements are phrased in -/

/-- The buffer of `printf`, `fprintf` and `vfprintf` after `malloc`, `memset`
and `vsnprintf`, with the value `cnt` that `vsnprintf` returned. -/
def formatBuffer (fmt : Formatted) : Buffer × Int :=
  vsnprintf (memset (malloc OUTPUT_LENGTH) OUTPUT_LENGTH 0) OUTPUT_LENGTH fmt

/-- The C string that `printf`, `fprintf` and `vfprintf` read from their buffer
after the store `buffer[cnt] = 0`; `none` when the store is out of bounds. -/
def formatted (fmt : Formatted) : Option Text :=
  match storeChar (formatBuffer fmt).1 (formatBuffer fmt).2 0 with
  | none => none
  | some buffer => cString buffer

/-- The C string a byte sequence is read as: its bytes before the first NUL. -/
def cText (bytes : Text) : Text := bytes.takeWhile (fun b => b ≠ 0)

/-- The index `cnt` at which `printf`, `fprintf` and `vfprintf` store the
terminating NUL: the value `vsnprintf` returned. -/
def nulIndex (fmt : Formatted) : Int := (formatBuffer fmt).2

/-- The store `buffer[cnt] = 0` lies inside the buffer. -/
def InBounds (fmt : Formatted) : Prop :=
  0 ≤ nulIndex fmt ∧ nulIndex fmt < (OUTPUT_LENGTH : Int)

instance (fmt : Formatted) : Decidable (InBounds fmt) := by
  unfold InBounds; infer_instance

/-- The call stays within defined behaviour as far as its buffer goes. -/
def LibCall.Defined : LibCall → Prop
  | .printf fmt => InBounds fmt
  | .fprintf _ fmt => InBounds fmt
  | .vfprintf _ fmt => InBounds fmt
  | .perror _ => True

instance (c : LibCall) : Decidable c.Defined := by
  cases c <;> unfold LibCall.Defined <;> infer_instance

/-- What one defined call delivers to the callback object `obj`. -/
def LibCall.delivered (obj : JObject) : LibCall → List CallbackEvent
  | .printf fmt =>
    match formatted fmt with
    | some t => if obj.hasAppendResult = false then [] else [.appendResult t]
    | none => []
  | _ => []

/-- What one defined call writes to the diagnostic log. -/
def LibCall.logged (obj : JObject) : LibCall → List LogLine
  | .printf fmt =>
    match formatted fmt with
    | some _ => if obj.hasAppendResult = false then [.cantFindAppendResult] else []
    | none => []
  | .fprintf _ fmt =>
    match formatted fmt with
    | some t => [.errorFprintf t]
    | none => []
  | .vfprintf _ fmt =>
    match formatted fmt with
    | some t => [.errorVfprintf t]
    | none => []
  | .perror msg => [.errorPerror msg]

/-- The callback events of a list of defined calls. -/
def deliveredAll (obj : JObject) : List LibCall → List CallbackEvent
  | [] => []
  | c :: rest => c.delivered obj ++ deliveredAll obj rest

/-- The log lines of a list of defined calls. -/
def loggedAll (obj : JObject) : List LibCall → List LogLine
  | [] => []
  | c :: rest => c.logged obj ++ loggedAll obj rest

/-- The lines the argument loop of `do_execute` logs for the elements from
index `i` on. -/
def commandLog (i : Nat) : List Text → List LogLine
  | [] => []
  | a :: rest => .command i a :: commandLog (i + 1) rest

/-- The state in which `do_execute` enters the engine when the thread
attached: the globals are set, the arguments are logged and
`call_java_clear_result` has run. -/
def engineEntry (jthis : JObject) (jarray : List Text) (st : State) : State :=
  { j_java_cls := some jthis, j_argvs := some jarray, exec_status := st.exec_status,
    attached := true,
    callback := st.callback ++ (if jthis.hasClearResult = false then [] else [.clearResult]),
    log := st.log ++ [.startTraceroute, .commandSize jarray.length] ++ commandLog 0 jarray
      ++ (if jthis.hasClearResult = false then [.cantFindClearResult] else []),
    execCalls := st.execCalls }

/-! ## The engine behind `exec`, modelled from the spec

The engine's own sources are not part of the wrapper.  Its hop scheduler and
result reporter are modelled from sections 3, 4.3, 4.4, 4.5 and 6 of the
specification, as a run of the engine in the sense above. -/

/-- Modelled from the spec: the outcome of one probe attempt, which the engine's
transport and decoder (not part of the wrapper's sources) produce: a matched
response with its responder, round-trip time and whether it came from the
destination, a timeout, or a fatal transport error. -/
inductive ProbeOutcome where
  | response (responder : Nat) (rtt : Nat) (fromDestination : Bool)
  | timeout
  | transportError
  deriving DecidableEq, Repr

/-- Modelled from the spec: one entry of a `HopResult` (section 3), missing from
the sources: responder and round-trip time, both `none` when the probe timed
out. -/
structure Attempt where
  responder : Option Nat
  rtt : Option Nat
  deriving DecidableEq, Repr

/-- Modelled from the spec: the `HopResult` of section 3, missing from the
sources: the hop number and one entry for each probe attempt at that hop. -/
structure HopResult where
  hop : Nat
  attempts : List Attempt
  deriving DecidableEq, Repr

/-- Modelled from the spec: the terminal status of the Hop Scheduler's `Done`
state (section 4.3), missing from the sources. -/
inductive Terminal where
  | success
  | hopLimit
  | error
  deriving DecidableEq, Repr

/-- Modelled from the spec: the status values of section 6 for the engine's
`return`, missing from the sources: 0 for success, a positive value when
`max_hops` was reached, a negative value for a fatal error. -/
def Terminal.status : Terminal → Int
  | .success => 0
  | .hopLimit => 1
  | .error => -1

/-- Modelled from the spec: the configuration the engine's run validates
(section 4.5), missing from the sources. -/
structure Config where
  max_hops : Nat
  probes_per_hop : Nat
  deriving DecidableEq, Repr

/-- Modelled from the spec: the validation of the hop range and of the probes
per hop in `run` (section 4.5), missing from the sources. -/
def Config.valid (cfg : Config) : Prop := 1 ≤ cfg.max_hops ∧ 1 ≤ cfg.probes_per_hop

instance (cfg : Config) : Decidable cfg.valid := by
  unfold Config.valid; infer_instance

/-- Modelled from the spec: the network as the engine's scheduler meets it,
missing from the sources: the outcome of each attempt at each hop limit. -/
abbrev Network := Nat → Nat → ProbeOutcome

/-- Modelled from the spec: state `ProbingHop(h)` of the Hop Scheduler (section
4.3), missing from the sources: `probes_per_hop` probes are sent with hop
limit `h` and each one is resolved. -/
def probingHop (cfg : Config) (net : Network) (h : Nat) : List ProbeOutcome :=
  (List.range cfg.probes_per_hop).map (net h)

/-- Modelled from the spec: state `AggregatingHop(h)` of the Hop Scheduler
(section 4.3), missing from the sources: the `HopResult` is built from all
attempts, an attempt without response being recorded as `none`. -/
def aggregatingHop (h : Nat) (outcomes : List ProbeOutcome) : HopResult :=
  { hop := h,
    attempts := outcomes.map fun o =>
      match o with
      | .response responder rtt _ => { responder := some responder, rtt := some rtt }
      | _ => { responder := none, rtt := none } }

/-- Modelled from the spec: the Hop Scheduler of section 4.3, missing from the
sources, from `ProbingHop(h)` on: the hop is probed, its `HopResult` is handed
to the reporter, and the machine is `Done` when a response came from the
destination, when `h == max_hops`, or on a fatal transport error; otherwise it
goes on with `ProbingHop(h + 1)`.  The result is the `HopResult`s handed over,
in order, and the terminal status; `none` when `fuel` steps did not reach
`Done`. -/
def hopScheduler (cfg : Config) (net : Network) :
    Nat → Nat → Option (List HopResult × Terminal)
  | 0, _ => none
  | fuel + 1, h =>
    let outcomes := probingHop cfg net h
    let result := aggregatingHop h outcomes
    if outcomes.any (fun o => match o with
        | .response _ _ fromDestination => fromDestination
        | _ => false) then
      some ([result], .success)
    else if h = cfg.max_hops then
      some ([result], .hopLimit)
    else if outcomes.any (fun o => o = .transportError) then
      some ([result], .error)
    else
      (hopScheduler cfg net fuel (h + 1)).map fun (rest, t) => (result :: rest, t)

/-- Modelled from the spec: the Result Reporter's `emit` (section 4.4), missing
from the sources: one line for each `HopResult`, in the order they were handed
over, printed through the wrapper's `printf`; the layout of a line is left to
`formatLine`. -/
def emitCalls (formatLine : HopResult → Text) (results : List HopResult) : List LibCall :=
  results.map fun r => .printf (.text (formatLine r))

/-- Modelled from the spec: the engine's `run` (section 4.5), missing from the
sources, as a run of the engine behind `exec`: the configuration is validated,
the Hop Scheduler starts at hop 1 and is driven to `Done`, every `HopResult`
is emitted and the terminal status is returned. -/
def traceRun (cfg : Config) (net : Network) (formatLine : HopResult → Text) :
    Option EngineRun :=
  if cfg.valid then
    (hopScheduler cfg net cfg.max_hops 1).map fun (results, t) =>
      { calls := emitCalls formatLine results, fin := .ret t.status }
  else
    some { calls := [], fin := .ret Terminal.error.status }

/-! ## Lemmas -/

theorem printf_eq (fmt : Formatted) (st : State) :
    printf fmt st
      = match formatted fmt with
        | none => .halt .undefinedBehaviour st
        | some text => (call_java_append_result text st).bind fun _ st => .done 1 st := by
  unfold printf formatted formatBuffer
  simp only
  cases storeChar _ _ 0 with
  | none => rfl
  | some buffer => cases cString buffer <;> rfl

theorem fprintf_eq (fp : Stream) (fmt : Formatted) (st : State) :
    fprintf fp fmt st
      = match formatted fmt with
        | none => .halt .undefinedBehaviour st
        | some text => .done 1 (LOG st (.errorFprintf text)) := by
  unfold fprintf formatted formatBuffer
  simp only
  cases storeChar _ _ 0 with
  | none => rfl
  | some buffer => cases cString buffer <;> rfl

theorem vfprintf_eq (fp : Stream) (fmt : Formatted) (st : State) :
    vfprintf fp fmt st
      = match formatted fmt with
        | none => .halt .undefinedBehaviour st
        | some text => .done 1 (LOG st (.errorVfprintf text)) := by
  unfold vfprintf formatted formatBuffer
  simp only
  cases storeChar _ _ 0 with
  | none => rfl
  | some buffer => cases cString buffer <;> rfl

theorem memset_zero (buf : Buffer) (c : Nat) : memset buf c 0 = buf := by
  simp [memset]

theorem cString_text (bytes : Text) (rest : Buffer) :
    cString (bytes.map some ++ some 0 :: rest) = some (cText bytes) := by
  induction bytes with
  | nil => simp [cString, cText]
  | cons b bs ih =>
    by_cases hb : b = 0
    · simp [cString, cText, hb]
    · rw [List.map_cons, List.cons_append, cString, if_neg hb, ih]
      simp [cText, hb]

theorem formatBuffer_text (bytes : Text) (h : bytes.length < OUTPUT_LENGTH) :
    formatBuffer (.text bytes)
      = (bytes.map some ++ some 0 :: (malloc OUTPUT_LENGTH).drop (bytes.length + 1),
          (bytes.length : Int)) := by
  have h0 : OUTPUT_LENGTH ≠ 0 := by omega
  have ht : bytes.take (OUTPUT_LENGTH - 1) = bytes := List.take_of_length_le (by omega)
  simp [formatBuffer, memset_zero, vsnprintf, h0, ht]

theorem formatted_text (bytes : Text) (h : bytes.length < OUTPUT_LENGTH) :
    formatted (.text bytes) = some (cText bytes) := by
  have hlen : (bytes.map some ++ some 0 :: (malloc OUTPUT_LENGTH).drop (bytes.length + 1)).length
      = OUTPUT_LENGTH := by
    simp [malloc]; omega
  have hset : (bytes.map some ++ some 0 :: (malloc OUTPUT_LENGTH).drop (bytes.length + 1)).set
      bytes.length (some 0)
      = bytes.map some ++ some 0 :: (malloc OUTPUT_LENGTH).drop (bytes.length + 1) := by
    rw [List.set_append_right _ _ (by simp)]
    simp
  unfold formatted
  rw [formatBuffer_text bytes h]
  simp only [storeChar, hlen]
  rw [if_pos ⟨by omega, by exact_mod_cast h⟩]
  simp only [Int.toNat_ofNat, hset]
  exact cString_text _ _

theorem formatBuffer_cnt (bytes : Text) :
    (formatBuffer (.text bytes)).2 = (bytes.length : Int) := by
  have h0 : OUTPUT_LENGTH ≠ 0 := by decide
  simp [formatBuffer, vsnprintf, h0]

theorem formatBuffer_length (fmt : Formatted) :
    (formatBuffer fmt).1.length = OUTPUT_LENGTH := by
  have h0 : OUTPUT_LENGTH ≠ 0 := by decide
  cases fmt with
  | encodingError => simp [formatBuffer, memset_zero, vsnprintf, malloc]
  | text bytes =>
    simp [formatBuffer, memset_zero, vsnprintf, h0, malloc]
    omega

theorem formatted_long (bytes : Text) (h : OUTPUT_LENGTH ≤ bytes.length) :
    formatted (.text bytes) = none := by
  have hc := formatBuffer_cnt bytes
  have hl := formatBuffer_length (.text bytes)
  unfold formatted
  generalize formatBuffer (.text bytes) = p at hc hl
  obtain ⟨buffer, cnt⟩ := p
  simp only at hc hl
  subst hc
  simp only [storeChar, hl]
  rw [if_neg (by omega)]

theorem formatted_encodingError : formatted .encodingError = none := by
  simp [formatted, formatBuffer, vsnprintf, storeChar]

theorem inBounds_text_iff (bytes : Text) :
    InBounds (.text bytes) ↔ bytes.length < OUTPUT_LENGTH := by
  unfold InBounds nulIndex
  rw [formatBuffer_cnt]
  omega

theorem not_inBounds_encodingError : ¬ InBounds .encodingError := by decide

theorem formatted_of_inBounds (fmt : Formatted) (h : InBounds fmt) :
    ∃ bytes, fmt = .text bytes ∧ bytes.length < OUTPUT_LENGTH ∧
      formatted fmt = some (cText bytes) := by
  cases fmt with
  | encodingError => exact absurd h not_inBounds_encodingError
  | text bytes =>
    have hb := (inBounds_text_iff bytes).1 h
    exact ⟨bytes, rfl, hb, formatted_text bytes hb⟩

theorem formatted_of_not_inBounds (fmt : Formatted) (h : ¬ InBounds fmt) :
    formatted fmt = none := by
  cases fmt with
  | encodingError => exact formatted_encodingError
  | text bytes =>
    apply formatted_long
    have := (inBounds_text_iff bytes).not.1 h
    omega

theorem libCall_run_defined (c : LibCall) (obj : JObject) (st : State)
    (ha : st.attached = true) (hj : st.j_java_cls = some obj) (hd : c.Defined) :
    c.run st = .done () { st with callback := st.callback ++ c.delivered obj,
                                  log := st.log ++ c.logged obj } := by
  cases c with
  | printf fmt =>
    obtain ⟨bytes, rfl, _, hf⟩ := formatted_of_inBounds fmt hd
    by_cases hap : obj.hasAppendResult = false
    · simp [LibCall.run, printf_eq, hf, call_java_append_result, JNU_GetEnv, ha, hj, hap,
        Run.bind, LibCall.delivered, LibCall.logged, LOG]
    · simp [LibCall.run, printf_eq, hf, call_java_append_result, JNU_GetEnv, ha, hj, hap,
        Run.bind, LibCall.delivered, LibCall.logged, LOG]
  | fprintf fp fmt =>
    obtain ⟨bytes, rfl, _, hf⟩ := formatted_of_inBounds fmt hd
    simp [LibCall.run, fprintf_eq, hf, Run.bind, LibCall.delivered, LibCall.logged, LOG]
  | vfprintf fp fmt =>
    obtain ⟨bytes, rfl, _, hf⟩ := formatted_of_inBounds fmt hd
    simp [LibCall.run, vfprintf_eq, hf, Run.bind, LibCall.delivered, LibCall.logged, LOG]
  | perror msg =>
    simp [LibCall.run, Traceroute.perror, LibCall.delivered, LibCall.logged, LOG]

theorem runCalls_defined (calls : List LibCall) (obj : JObject) (st : State)
    (ha : st.attached = true) (hj : st.j_java_cls = some obj)
    (hd : ∀ c ∈ calls, c.Defined) :
    runCalls calls st = .done () { st with callback := st.callback ++ deliveredAll obj calls,
                                           log := st.log ++ loggedAll obj calls } := by
  induction calls generalizing st with
  | nil => simp [runCalls, deliveredAll, loggedAll]
  | cons c rest ih =>
    have hc : c.Defined := hd c (List.mem_cons_self _ _)
    have hr : ∀ c ∈ rest, c.Defined := fun x hx => hd x (List.mem_cons_of_mem _ hx)
    rw [runCalls, libCall_run_defined c obj st ha hj hc]
    simp only [Run.bind]
    rw [ih { st with callback := st.callback ++ c.delivered obj,
                     log := st.log ++ c.logged obj } ha hj hr]
    simp [deliveredAll, loggedAll]

theorem call_java_append_result_callback (text : Text) (st : State) :
    ∃ ts : List Text, (call_java_append_result text st).state.callback
      = st.callback ++ ts.map .appendResult := by
  unfold call_java_append_result
  split
  · exact ⟨[], by simp [Run.state]⟩
  · split
    · exact ⟨[], by simp [Run.state]⟩
    · split
      · exact ⟨[], by simp [Run.state, LOG]⟩
      · exact ⟨[text], by simp [Run.state]⟩

/-- Whatever a call does, it adds nothing but appends to the callback
history. -/
theorem libCall_run_callback (c : LibCall) (st : State) :
    ∃ ts : List Text, (c.run st).state.callback = st.callback ++ ts.map .appendResult := by
  cases c with
  | printf fmt =>
    simp only [LibCall.run, printf_eq]
    cases hf : formatted fmt with
    | none => exact ⟨[], by simp [Run.state, Run.bind]⟩
    | some t =>
      obtain ⟨ts, h⟩ := call_java_append_result_callback t st
      refine ⟨ts, ?_⟩
      cases hr : call_java_append_result t st with
      | done u st1 => rw [hr] at h; simpa [Run.bind, Run.state, hr] using h
      | halt why st1 => rw [hr] at h; simpa [Run.bind, Run.state, hr] using h
  | fprintf fp fmt =>
    simp only [LibCall.run, fprintf_eq]
    cases hf : formatted fmt with
    | none => exact ⟨[], by simp [Run.state, Run.bind]⟩
    | some t => exact ⟨[], by simp [Run.state, Run.bind, LOG]⟩
  | vfprintf fp fmt =>
    simp only [LibCall.run, vfprintf_eq]
    cases hf : formatted fmt with
    | none => exact ⟨[], by simp [Run.state, Run.bind]⟩
    | some t => exact ⟨[], by simp [Run.state, Run.bind, LOG]⟩
  | perror msg =>
    exact ⟨[], by simp [LibCall.run, Traceroute.perror, Run.state, LOG]⟩

theorem runCalls_callback (calls : List LibCall) (st : State) :
    ∃ ts : List Text, (runCalls calls st).state.callback
      = st.callback ++ ts.map .appendResult := by
  induction calls generalizing st with
  | nil => exact ⟨[], by simp [runCalls, Run.state]⟩
  | cons c rest ih =>
    obtain ⟨ts, h⟩ := libCall_run_callback c st
    rw [runCalls]
    cases hr : c.run st with
    | halt why st1 =>
      rw [hr] at h
      exact ⟨ts, by simpa [Run.bind, Run.state] using h⟩
    | done u st1 =>
      rw [hr] at h
      simp only [Run.state] at h
      obtain ⟨ts2, h2⟩ := ih st1
      refine ⟨ts ++ ts2, ?_⟩
      simp only [Run.bind]
      rw [h2, h]
      simp

theorem take_set_succ {α : Type} (l : List α) (i : Nat) (x : α) (h : i < l.length) :
    (l.set i x).take (i + 1) = l.take i ++ [x] := by
  induction l generalizing i with
  | nil => simp at h
  | cons a l ih =>
    cases i with
    | zero => simp
    | succ i =>
      simp only [List.length_cons, Nat.add_lt_add_iff_right] at h
      simp [ih i h]

theorem argvLoop_spec (arr : List Text) (n : Nat) :
    ∀ (i : Nat) (argv : List (Option Text)) (st : State),
      arr.length - i = n → i ≤ arr.length → argv.length = arr.length →
      argvLoop arr arr.length i argv st
        = .done (argv.take i ++ (arr.drop i).map some)
            { st with log := st.log ++ commandLog i (arr.drop i) } := by
  induction n with
  | zero =>
    intro i argv st hn hi hl
    have hi2 : i = arr.length := by omega
    subst hi2
    rw [argvLoop, if_neg (by omega)]
    have : List.take arr.length argv = argv := List.take_of_length_le (by omega)
    simp [commandLog, this]
  | succ n ih =>
    intro i argv st hn hi hl
    have hlt : i < arr.length := by omega
    rw [argvLoop, if_pos hlt]
    have hget : arr[i]? = some arr[i] := List.getElem?_eq_getElem hlt
    rw [hget]
    simp only
    rw [ih (i + 1) _ _ (by omega) (by omega) (by simpa using hl)]
    have hd : arr.drop i = arr[i] :: arr.drop (i + 1) := List.drop_eq_getElem_cons hlt
    rw [take_set_succ argv i _ (by omega), hd]
    simp only [List.map_cons, commandLog, LOG, List.append_assoc, List.singleton_append]

theorem argvLoop_all (arr : List Text) (st : State) :
    argvLoop arr arr.length 0 (List.replicate arr.length none) st
      = .done (arr.map some) { st with log := st.log ++ commandLog 0 arr } := by
  rw [argvLoop_spec arr arr.length 0 _ st (by omega) (by omega) (by simp)]
  simp

theorem execute_attached (engine : Engine) (jthis : JObject) (jarray : List Text) (st : State) :
    Java_com_wandroid_traceroute_TraceRoute_execute 0 engine jthis jarray st
      = (pthread_join ((exec engine jarray.length (jarray.map some)
            (engineEntry jthis jarray st)).bind fun status st =>
          .done () { st with exec_status := status,
                             log := st.log ++ [.executeResult status],
                             attached := false })).bind fun _ st =>
        .done st.exec_status { st with j_java_cls := none, j_argvs := none,
                                       log := st.log ++ [.finishTraceroute st.exec_status] } := by
  unfold Java_com_wandroid_traceroute_TraceRoute_execute do_execute
  simp only [ne_eq, not_true_eq_false, if_false, JNU_GetEnv, if_true, LOG]
  rw [argvLoop_all]
  by_cases hc : jthis.hasClearResult = false
  · simp [Run.bind, call_java_clear_result, JNU_GetEnv, hc, LOG, engineEntry]
  · simp [Run.bind, call_java_clear_result, JNU_GetEnv, hc, LOG, engineEntry]

theorem execute_attach_failed (attachStatus : Int) (h : attachStatus ≠ 0) (engine : Engine)
    (jthis : JObject) (jarray : List Text) (st : State) :
    Java_com_wandroid_traceroute_TraceRoute_execute attachStatus engine jthis jarray st
      = .done st.exec_status
          { st with j_java_cls := none, j_argvs := none, attached := false,
                    log := st.log ++ [.startTraceroute, .attachFailed,
                      .finishTraceroute st.exec_status] } := by
  unfold Java_com_wandroid_traceroute_TraceRoute_execute do_execute
  simp [h, LOG, pthread_join, Run.bind]

theorem libCall_run_execCalls (c : LibCall) (st : State) :
    (c.run st).state.execCalls = st.execCalls := by
  cases c with
  | printf fmt =>
    simp only [LibCall.run, printf_eq]
    cases hf : formatted fmt with
    | none => simp [Run.state, Run.bind]
    | some t =>
      simp only [call_java_append_result]
      split
      · simp [Run.state, Run.bind]
      · split
        · simp [Run.state, Run.bind]
        · split <;> simp [Run.state, Run.bind, LOG]
  | fprintf fp fmt =>
    simp only [LibCall.run, fprintf_eq]
    cases hf : formatted fmt <;> simp [Run.state, Run.bind, LOG]
  | vfprintf fp fmt =>
    simp only [LibCall.run, vfprintf_eq]
    cases hf : formatted fmt <;> simp [Run.state, Run.bind, LOG]
  | perror msg => simp [LibCall.run, Traceroute.perror, Run.state, LOG]

theorem runCalls_execCalls (calls : List LibCall) (st : State) :
    (runCalls calls st).state.execCalls = st.execCalls := by
  induction calls generalizing st with
  | nil => simp [runCalls, Run.state]
  | cons c rest ih =>
    have h := libCall_run_execCalls c st
    rw [runCalls]
    cases hr : c.run st with
    | halt why st1 => rw [hr] at h; simpa [Run.bind, Run.state] using h
    | done u st1 =>
      rw [hr] at h
      simp only [Run.state] at h
      simp only [Run.bind]
      rw [ih st1, h]

theorem exec_returns (engine : Engine) (argc : Nat) (argv : List (Option Text)) (obj : JObject)
    (st : State) (s : Int) (ha : st.attached = true) (hj : st.j_java_cls = some obj)
    (hfin : (engine argc argv).fin = .ret s)
    (hd : ∀ c ∈ (engine argc argv).calls, c.Defined) :
    exec engine argc argv st
      = .done s { st with execCalls := st.execCalls ++ [(argc, argv)],
                          callback := st.callback ++ deliveredAll obj (engine argc argv).calls,
                          log := st.log ++ loggedAll obj (engine argc argv).calls } := by
  unfold exec
  simp only
  rw [runCalls_defined _ obj { st with execCalls := st.execCalls ++ [(argc, argv)] } ha hj hd, hfin]
  simp [Run.bind]

theorem exec_exits (engine : Engine) (argc : Nat) (argv : List (Option Text)) (obj : JObject)
    (st : State) (s : Int) (ha : st.attached = true) (hj : st.j_java_cls = some obj)
    (hfin : (engine argc argv).fin = .exit s)
    (hd : ∀ c ∈ (engine argc argv).calls, c.Defined) :
    exec engine argc argv st
      = .halt .threadExit
          { st with execCalls := st.execCalls ++ [(argc, argv)],
                    callback := st.callback ++ deliveredAll obj (engine argc argv).calls,
                    log := st.log ++ loggedAll obj (engine argc argv).calls ++ [.errorExit s],
                    attached := false, exec_status := -3 } := by
  unfold exec
  simp only
  rw [runCalls_defined _ obj { st with execCalls := st.execCalls ++ [(argc, argv)] } ha hj hd, hfin]
  simp [Run.bind, exit, LOG]

theorem exec_callback (engine : Engine) (argc : Nat) (argv : List (Option Text)) (st : State) :
    ∃ ts : List Text, (exec engine argc argv st).state.callback
      = st.callback ++ ts.map .appendResult := by
  obtain ⟨ts, h⟩ := runCalls_callback (engine argc argv).calls
    { st with execCalls := st.execCalls ++ [(argc, argv)] }
  refine ⟨ts, ?_⟩
  unfold exec
  simp only
  cases hr : runCalls (engine argc argv).calls
      { st with execCalls := st.execCalls ++ [(argc, argv)] } with
  | halt why st1 => rw [hr] at h; simpa [Run.bind, Run.state] using h
  | done u st1 =>
    rw [hr] at h
    simp only [Run.state] at h
    simp only [Run.bind]
    cases (engine argc argv).fin <;> simpa [Run.state, exit, LOG] using h

theorem exec_execCalls (engine : Engine) (argc : Nat) (argv : List (Option Text)) (st : State) :
    (exec engine argc argv st).state.execCalls = st.execCalls ++ [(argc, argv)] := by
  have h := runCalls_execCalls (engine argc argv).calls
    { st with execCalls := st.execCalls ++ [(argc, argv)] }
  unfold exec
  simp only
  cases hr : runCalls (engine argc argv).calls
      { st with execCalls := st.execCalls ++ [(argc, argv)] } with
  | halt why st1 => rw [hr] at h; simpa [Run.bind, Run.state] using h
  | done u st1 =>
    rw [hr] at h
    simp only [Run.state] at h
    simp only [Run.bind]
    cases (engine argc argv).fin <;> simpa [Run.state, exit, LOG] using h

/-- After the engine, in whatever way it ended, the wrapper touches neither
the callback history nor the record of engine calls. -/
theorem execute_attached_state (engine : Engine) (jthis : JObject) (jarray : List Text)
    (st : State) :
    (Java_com_wandroid_traceroute_TraceRoute_execute 0 engine jthis jarray st).state.callback
        = (exec engine jarray.length (jarray.map some) (engineEntry jthis jarray st)).state.callback
      ∧ (Java_com_wandroid_traceroute_TraceRoute_execute 0 engine jthis jarray st).state.execCalls
        = (exec engine jarray.length (jarray.map some)
            (engineEntry jthis jarray st)).state.execCalls := by
  rw [execute_attached]
  cases exec engine jarray.length (jarray.map some) (engineEntry jthis jarray st) with
  | done s st1 => simp [Run.bind, pthread_join, Run.state]
  | halt why st1 => cases why <;> simp [Run.bind, pthread_join, Run.state]

theorem hopScheduler_hops (cfg : Config) (net : Network) (fuel : Nat) :
    ∀ h, h ≤ cfg.max_hops → cfg.max_hops - h < fuel →
      ∃ results t, hopScheduler cfg net fuel h = some (results, t)
        ∧ results.map (·.hop) = List.range' h results.length
        ∧ 1 ≤ results.length ∧ results.length ≤ cfg.max_hops - h + 1
        ∧ (t = .hopLimit → results.length = cfg.max_hops - h + 1)
        ∧ ∀ r ∈ results, r.attempts.length = cfg.probes_per_hop := by
  induction fuel with
  | zero => intro h _ hf; omega
  | succ fuel ih =>
    intro h hle hf
    have hatt : (aggregatingHop h (probingHop cfg net h)).attempts.length
        = cfg.probes_per_hop := by
      simp [aggregatingHop, probingHop]
    have hhop : (aggregatingHop h (probingHop cfg net h)).hop = h := rfl
    rw [hopScheduler]
    simp only
    split
    · exact ⟨_, _, rfl, by simp [hhop], by simp, by simp, by simp, by simpa using hatt⟩
    · split
      · next heq =>
        exact ⟨_, _, rfl, by simp [hhop], by simp, by simp, by simp [heq], by simpa using hatt⟩
      · next hne =>
        split
        · exact ⟨_, _, rfl, by simp [hhop], by simp, by simp, by simp, by simpa using hatt⟩
        · obtain ⟨rest, t, hr, hh, h1, h2, h3, h4⟩ := ih (h + 1) (by omega) (by omega)
          refine ⟨aggregatingHop h (probingHop cfg net h) :: rest, t, by simp [hr], ?_, by simp,
            by simp; omega, ?_, ?_⟩
          · simp [hhop, hh, List.range'_succ]
          · intro ht
            have := h3 ht
            simp; omega
          · intro r hr'
            rcases List.mem_cons.1 hr' with rfl | hin
            · exact hatt
            · exact h4 r hin

theorem deliveredAll_emitCalls (obj : JObject) (formatLine : HopResult → Text)
    (results : List HopResult)
    (hshort : ∀ r ∈ results, (formatLine r).length < OUTPUT_LENGTH) :
    deliveredAll obj (emitCalls formatLine results)
      = if obj.hasAppendResult = false then []
        else results.map fun r => .appendResult (cText (formatLine r)) := by
  induction results with
  | nil => simp [emitCalls, deliveredAll]
  | cons r rest ih =>
    have hr := hshort r (List.mem_cons_self _ _)
    have ih' := ih (fun x hx => hshort x (List.mem_cons_of_mem _ hx))
    simp only [emitCalls, List.map_cons, deliveredAll] at ih' ⊢
    rw [ih']
    by_cases hap : obj.hasAppendResult = false
    · simp [LibCall.delivered, formatted_text _ hr, hap]
    · simp [LibCall.delivered, formatted_text _ hr, hap]

theorem emitCalls_defined (formatLine : HopResult → Text) (results : List HopResult)
    (hshort : ∀ r ∈ results, (formatLine r).length < OUTPUT_LENGTH) :
    ∀ c ∈ emitCalls formatLine results, c.Defined := by
  intro c hc
  simp only [emitCalls, List.mem_map] at hc
  obtain ⟨r, hr, rfl⟩ := hc
  exact (inBounds_text_iff _).2 (hshort r hr)

theorem printf_undefined (fmt : Formatted) (h : formatted fmt = none) (st : State) :
    printf fmt st = .halt .undefinedBehaviour st := by
  simp [printf_eq, h]

theorem fprintf_undefined (fp : Stream) (fmt : Formatted) (h : formatted fmt = none)
    (st : State) : fprintf fp fmt st = .halt .undefinedBehaviour st := by
  simp [fprintf_eq, h]

theorem vfprintf_undefined (fp : Stream) (fmt : Formatted) (h : formatted fmt = none)
    (st : State) : vfprintf fp fmt st = .halt .undefinedBehaviour st := by
  simp [vfprintf_eq, h]

theorem cText_of_no_nul (t : Text) (h : 0 ∉ t) : cText t = t := by
  unfold cText
  rw [List.takeWhile_eq_self_iff]
  intro b hb
  have : b ≠ 0 := fun h0 => h (h0 ▸ hb)
  simpa using this

theorem printf_delivers (obj : JObject) (st : State) (t : Text)
    (hattached : st.attached = true) (hobj : st.j_java_cls = some obj)
    (happend : obj.hasAppendResult = true) (hshort : t.length < OUTPUT_LENGTH) :
    printf (.text t) st
      = .done 1 { st with callback := st.callback ++ [.appendResult (cText t)] } := by
  simp [printf_eq, formatted_text t hshort, call_java_append_result, JNU_GetEnv, hattached, hobj,
    happend, Run.bind]

/-! ## The claims -/

/-- C1: when the worker thread attaches (`AttachCurrentThread` returns 0) and
the engine's run for the marshalled arguments stays within defined behaviour
and ends with `return s`, `execute` returns exactly `s`, for every sign of
`s`, and leaves `exec_status = s`. -/
theorem execute_returns_engine_status (attachStatus : Int) (engine : Engine) (jthis : JObject)
    (jarray : List Text) (st : State) (s : Int)
    (hattach : attachStatus = 0)
    (hret : (engine jarray.length (jarray.map some)).fin = .ret s)
    (hdef : ∀ c ∈ (engine jarray.length (jarray.map some)).calls, c.Defined) :
    ∃ st', Java_com_wandroid_traceroute_TraceRoute_execute attachStatus
        engine jthis jarray st = .done s st' ∧ st'.exec_status = s := by
  subst hattach
  rw [execute_attached,
    exec_returns engine _ _ jthis (engineEntry jthis jarray st) s rfl rfl hret hdef]
  exact ⟨_, rfl, rfl⟩

/-- C1 (witness): an engine that prints one line and returns -5. -/
theorem execute_returns_engine_status_witness :
    ∃ st', Java_com_wandroid_traceroute_TraceRoute_execute 0
        (fun _ _ => ⟨[.printf (.text [49, 32, 42])], .ret (-5)⟩) ⟨true, true⟩
        [[45, 110], [104, 111, 115, 116]] State.initial = .done (-5) st'
      ∧ st'.exec_status = -5 :=
  execute_returns_engine_status 0 (fun _ _ => ⟨[.printf (.text [49, 32, 42])], .ret (-5)⟩)
    ⟨true, true⟩ [[45, 110], [104, 111, 115, 116]] State.initial (-5) rfl rfl (by decide)

/-- C2 (evaluation at the failing input): a first invocation attaches and its
engine returns 0; in the second invocation `AttachCurrentThread` fails, so the
engine never runs, and `execute` returns the stale 0 instead of -3.  On the
freshly loaded library the same failure returns -3. -/
theorem execute_attach_failure_returns_stale_status :
    (Java_com_wandroid_traceroute_TraceRoute_execute 0
        (fun _ _ => ⟨[], .ret 0⟩) ⟨true, true⟩ [] State.initial).value? = some 0
      ∧ (Java_com_wandroid_traceroute_TraceRoute_execute 1
          (fun _ _ => ⟨[], .ret 0⟩) ⟨true, true⟩ []
          (Java_com_wandroid_traceroute_TraceRoute_execute 0
              (fun _ _ => ⟨[], .ret 0⟩) ⟨true, true⟩ [] State.initial).state).value?
          = some 0
      ∧ (Java_com_wandroid_traceroute_TraceRoute_execute 1
          (fun _ _ => ⟨[], .ret 0⟩) ⟨true, true⟩ [] State.initial).value?
          = some (-3) := by
  refine ⟨?_, ?_, ?_⟩
  · rw [execute_attached,
      exec_returns _ _ _ ⟨true, true⟩ (engineEntry ⟨true, true⟩ [] State.initial) 0
        rfl rfl rfl
        (by simp)]
    rfl
  · rw [execute_attach_failed 1 (by decide)]
    rw [execute_attached,
      exec_returns _ _ _ ⟨true, true⟩ (engineEntry ⟨true, true⟩ [] State.initial) 0
        rfl rfl rfl
        (by simp)]
    rfl
  · rw [execute_attach_failed 1 (by decide)]
    rfl

/-- C3 (counterexample): a callback object without `appendResult` receives no
append for a two-byte text, and a text with a NUL byte in the middle arrives
cut at that byte, although both texts are shorter than `OUTPUT_LENGTH`. -/
theorem printf_append_not_always_delivered :
    (printf (.text [104, 105])
        ⟨some ⟨true, false⟩, none, -3, true, [], [], []⟩).state.callback = []
      ∧ (printf (.text [104, 0, 105])
          ⟨some ⟨true, true⟩, none, -3, true, [], [], []⟩).state.callback
        = [.appendResult [104]] := by
  constructor
  · simp [printf_eq, formatted_text [104, 105] (by decide), call_java_append_result, JNU_GetEnv,
      Run.bind, Run.state, LOG]
  · rw [printf_delivers ⟨true, true⟩ _ [104, 0, 105] rfl rfl rfl (by decide)]
    simp [Run.state, cText]

/-- C3 (amended): while the worker is attached and the callback object provides
`appendResult`, for printf calls whose formatted texts are shorter than
`OUTPUT_LENGTH` bytes and hold no NUL byte, each call returns with its own
text appended at the end of the callback history, so after the first `k`
calls the callback has received exactly the first `k` texts, in call order. -/
theorem printf_calls_delivered_in_order (obj : JObject) (st : State) (texts : List Text)
    (hattached : st.attached = true) (hobj : st.j_java_cls = some obj)
    (happend : obj.hasAppendResult = true)
    (hshort : ∀ t ∈ texts, t.length < OUTPUT_LENGTH) (hnul : ∀ t ∈ texts, 0 ∉ t) :
    (∀ t ∈ texts, ∀ st' : State, st'.attached = true → st'.j_java_cls = some obj →
        printf (.text t) st'
          = .done 1 { st' with callback := st'.callback ++ [.appendResult t] })
      ∧ ∀ k ≤ texts.length,
          runCalls ((texts.take k).map fun t => .printf (.text t)) st
            = .done () { st with callback := st.callback ++ (texts.take k).map .appendResult } := by
  constructor
  · intro t ht st' ha hj
    rw [printf_delivers obj st' t ha hj happend (hshort t ht), cText_of_no_nul t (hnul t ht)]
  · intro k _
    have hsub : ∀ t ∈ texts.take k, t ∈ texts := fun t ht => List.mem_of_mem_take ht
    generalize texts.take k = l at hsub
    induction l generalizing st with
    | nil => simp [runCalls]
    | cons t rest ih =>
      have ht : t ∈ texts := hsub t (List.mem_cons_self _ _)
      simp only [List.map_cons, runCalls, LibCall.run]
      rw [printf_delivers obj st t hattached hobj happend (hshort t ht),
        cText_of_no_nul t (hnul t ht)]
      simp only [Run.bind]
      rw [ih { st with callback := st.callback ++ [.appendResult t] } hattached hobj
        (fun x hx => hsub x (List.mem_cons_of_mem _ hx))]
      simp

/-- C3 (witness): two hop lines printed after the clear arrive as two appends,
in call order. -/
theorem printf_calls_delivered_in_order_witness :
    runCalls [.printf (.text [49, 32, 42]), .printf (.text [50, 32, 42])]
        ⟨some ⟨true, true⟩, none, -3, true, [.clearResult], [], []⟩
      = .done () ⟨some ⟨true, true⟩, none, -3, true,
          [.clearResult, .appendResult [49, 32, 42], .appendResult [50, 32, 42]], [], []⟩ :=
  (printf_calls_delivered_in_order ⟨true, true⟩
    ⟨some ⟨true, true⟩, none, -3, true, [.clearResult], [], []⟩
    [[49, 32, 42], [50, 32, 42]] rfl rfl rfl (by decide) (by decide)).2 2 (by decide)

/-- C4: in a run in which the thread attaches and the callback object
provides `clearResult`, the engine is entered in a state `entry` whose
callback history is the earlier one followed by a single `clearResult`, and
whatever the engine then does, the history of the whole run is that single
`clearResult` followed by appends only. -/
theorem clear_once_before_engine (attachStatus : Int) (engine : Engine) (jthis : JObject)
    (jarray : List Text) (st : State)
    (hattach : attachStatus = 0) (hclear : jthis.hasClearResult = true) :
    ∃ (entry : State) (appends : List Text),
      entry.callback = st.callback ++ [.clearResult]
        ∧ entry.execCalls = st.execCalls
        ∧ (Java_com_wandroid_traceroute_TraceRoute_execute attachStatus
            engine jthis jarray st).state.callback
            = (exec engine jarray.length (jarray.map some) entry).state.callback
        ∧ (Java_com_wandroid_traceroute_TraceRoute_execute attachStatus
            engine jthis jarray st).state.callback
            = st.callback ++ .clearResult :: appends.map .appendResult
        ∧ (.clearResult :: appends.map CallbackEvent.appendResult).count .clearResult = 1 := by
  subst hattach
  obtain ⟨ts, h⟩ := exec_callback engine jarray.length (jarray.map some)
    (engineEntry jthis jarray st)
  have he : (engineEntry jthis jarray st).callback = st.callback ++ [.clearResult] := by
    simp [engineEntry, hclear]
  refine ⟨engineEntry jthis jarray st, ts, he, rfl,
    (execute_attached_state engine jthis jarray st).1, ?_, ?_⟩
  · rw [(execute_attached_state engine jthis jarray st).1, h, he]
    simp
  · rw [List.count_cons_self, List.count_eq_zero.2]
    intro hmem
    obtain ⟨t, _, ht⟩ := List.mem_map.1 hmem
    exact CallbackEvent.noConfusion ht

/-- C4 (witness): a run whose engine prints one line. -/
theorem clear_once_before_engine_witness :
    ∃ (entry : State) (appends : List Text),
      entry.callback = State.initial.callback ++ [.clearResult]
        ∧ entry.execCalls = State.initial.execCalls
        ∧ (Java_com_wandroid_traceroute_TraceRoute_execute 0
            (fun _ _ => ⟨[.printf (.text [49])], .ret 0⟩) ⟨true, true⟩ [[56]]
            State.initial).state.callback
            = (exec (fun _ _ => ⟨[.printf (.text [49])], .ret 0⟩) ([[56]] : List Text).length
                (([[56]] : List Text).map some) entry).state.callback
        ∧ (Java_com_wandroid_traceroute_TraceRoute_execute 0
            (fun _ _ => ⟨[.printf (.text [49])], .ret 0⟩) ⟨true, true⟩ [[56]]
            State.initial).state.callback
            = State.initial.callback ++ .clearResult :: appends.map .appendResult
        ∧ (.clearResult :: appends.map CallbackEvent.appendResult).count .clearResult = 1 :=
  clear_once_before_engine 0 (fun _ _ => ⟨[.printf (.text [49])], .ret 0⟩) ⟨true, true⟩
    [[56]]
    State.initial rfl rfl

/-- C5: for every stream and every message, `fprintf`, `vfprintf` and `perror`
leave the callback history as it was, so no append is made; `perror` logs its
message, and `fprintf` and `vfprintf` log theirs, as the C string read back
from the buffer, when it is shorter than `OUTPUT_LENGTH`, and change nothing
else. -/
theorem diagnostics_leave_callback_unchanged (fp : Stream) (fmt : Formatted) (msg : Text)
    (st : State) :
    (fprintf fp fmt st).state.callback = st.callback
      ∧ (vfprintf fp fmt st).state.callback = st.callback
      ∧ (perror msg st).state.callback = st.callback
      ∧ perror msg st = .done () { st with log := st.log ++ [.errorPerror msg] }
      ∧ (∀ bytes, fmt = .text bytes → bytes.length < OUTPUT_LENGTH →
          fprintf fp fmt st = .done 1 { st with log := st.log ++ [.errorFprintf (cText bytes)] }
          ∧ vfprintf fp fmt st
            = .done 1 { st with log := st.log ++ [.errorVfprintf (cText bytes)] }) := by
  refine ⟨?_, ?_, ?_, ?_, ?_⟩
  · rw [fprintf_eq]
    cases formatted fmt <;> simp [Run.state, LOG]
  · rw [vfprintf_eq]
    cases formatted fmt <;> simp [Run.state, LOG]
  · simp [perror, Run.state, LOG]
  · simp [perror, LOG]
  · intro bytes hb hlen
    subst hb
    simp [fprintf_eq, vfprintf_eq, formatted_text bytes hlen, LOG]

/-- C5 (witness): a three-byte message on `stderr` goes to the log and leaves
the callback history, here a single clear, as it was. -/
theorem diagnostics_leave_callback_unchanged_witness :
    fprintf .stderr (.text [98, 97, 100])
        ⟨some ⟨true, true⟩, none, -3, true, [.clearResult], [], []⟩
        = .done 1 ⟨some ⟨true, true⟩, none, -3, true, [.clearResult],
            [.errorFprintf [98, 97, 100]], []⟩
      ∧ vfprintf .stderr (.text [98, 97, 100])
          ⟨some ⟨true, true⟩, none, -3, true, [.clearResult], [], []⟩
        = .done 1 ⟨some ⟨true, true⟩, none, -3, true, [.clearResult],
            [.errorVfprintf [98, 97, 100]], []⟩ :=
  (diagnostics_leave_callback_unchanged .stderr (.text [98, 97, 100]) []
    ⟨some ⟨true, true⟩, none, -3, true, [.clearResult], [], []⟩).2.2.2.2
    [98, 97, 100] rfl (by decide)

/-- C6: the option kinds and lengths of `tcp.h`: end-of-list 0, no-op 1,
max-segment-size 2 with length 4, window-scale 3 with length 3,
SACK-permitted 4 with length 2, timestamp 8 with length 10; the kinds,
SACK (5) included, are pairwise distinct. -/
theorem tcp_option_table :
    TCPOPT_EOL = 0 ∧ TCPOPT_NOP = 1
      ∧ TCPOPT_MAXSEG = 2 ∧ TCPOLEN_MAXSEG = 4
      ∧ TCPOPT_WINDOW = 3 ∧ TCPOLEN_WINDOW = 3
      ∧ TCPOPT_SACK_PERMITTED = 4 ∧ TCPOLEN_SACK_PERMITTED = 2
      ∧ TCPOPT_TIMESTAMP = 8 ∧ TCPOLEN_TIMESTAMP = 10
      ∧ [TCPOPT_EOL, TCPOPT_NOP, TCPOPT_MAXSEG, TCPOPT_WINDOW, TCPOPT_SACK_PERMITTED,
          TCPOPT_SACK, TCPOPT_TIMESTAMP].Pairwise (· ≠ ·) := by
  decide

/-- C7: the engine's run, modelled from the spec, for a valid configuration and
any network (every attempt may time out): the Hop Scheduler reaches `Done`
within `max_hops` hops, the `HopResult`s it emits carry the hop numbers
1, 2, ..., up to their count, each with `probes_per_hop` attempts, and
`max_hops` of them when the hop limit ends the run; through the wrapper, when
the thread attaches and every line is shorter than `OUTPUT_LENGTH`, `execute`
returns the terminal status and the callback has received after the clear one
append for each `HopResult`, in that order. -/
theorem hop_results_in_hop_order (cfg : Config) (net : Network)
    (formatLine : HopResult → Text) (hvalid : cfg.valid) :
    ∃ (results : List HopResult) (t : Terminal),
      traceRun cfg net formatLine
          = some { calls := emitCalls formatLine results, fin := .ret t.status }
        ∧ results.map (·.hop) = List.range' 1 results.length
        ∧ 1 ≤ results.length ∧ results.length ≤ cfg.max_hops
        ∧ (t = .hopLimit → results.length = cfg.max_hops)
        ∧ (∀ r ∈ results, r.attempts.length = cfg.probes_per_hop)
        ∧ ∀ (jthis : JObject) (jarray : List Text) (st : State),
            (∀ r ∈ results, (formatLine r).length < OUTPUT_LENGTH) →
            ∃ st', Java_com_wandroid_traceroute_TraceRoute_execute 0
                (fun _ _ => { calls := emitCalls formatLine results, fin := .ret t.status })
                jthis jarray st
                = .done t.status st'
              ∧ st'.callback = st.callback
                  ++ (if jthis.hasClearResult = false then [] else [.clearResult])
                  ++ (if jthis.hasAppendResult = false then []
                      else results.map fun r => .appendResult (cText (formatLine r))) := by
  obtain ⟨results, t, hr, hh, h1, h2, h3, h4⟩ :=
    hopScheduler_hops cfg net cfg.max_hops 1 hvalid.1 (by have := hvalid.1; omega)
  refine ⟨results, t, by simp [traceRun, hvalid, hr], hh, h1, by have := hvalid.1; omega,
    fun ht => by have := h3 ht; have := hvalid.1; omega, h4, ?_⟩
  intro jthis jarray st hshort
  rw [execute_attached,
    exec_returns (fun _ _ => { calls := emitCalls formatLine results, fin := .ret t.status })
      _ _ jthis (engineEntry jthis jarray st) t.status rfl rfl rfl
      (emitCalls_defined formatLine results hshort)]
  refine ⟨_, rfl, ?_⟩
  simp only [engineEntry]
  rw [deliveredAll_emitCalls jthis formatLine results hshort]

/-- C7 (witness): three hops, two probes each, every probe timing out. -/
theorem hop_results_in_hop_order_witness :
    ∃ (results : List HopResult) (t : Terminal),
      traceRun ⟨3, 2⟩ (fun _ _ => .timeout) (fun r => [48 + r.hop])
          = some { calls := emitCalls (fun r => [48 + r.hop]) results, fin := .ret t.status }
        ∧ results.map (·.hop) = List.range' 1 results.length
        ∧ 1 ≤ results.length ∧ results.length ≤ (3 : Nat) :=
  match hop_results_in_hop_order ⟨3, 2⟩ (fun _ _ => .timeout) (fun r => [48 + r.hop])
      (by decide) with
  | ⟨results, t, h1, h2, h3, h4, _⟩ => ⟨results, t, h1, h2, h3, h4⟩

/-- C8: when the engine's run for the marshalled arguments ends by calling the
overridden `exit`, after calls that stay within defined behaviour, `execute`
returns -3 and leaves `exec_status = -3`, whatever status was passed to
`exit` (0 included); the callback history and the log up to the exit line do
not depend on that status, which shows only in the one line `errorExit s`,
followed by the closing line of `execute`. -/
theorem exit_status_never_reaches_caller (attachStatus : Int)
    (calls : Nat → List (Option Text) → List LibCall) (jthis : JObject)
    (jarray : List Text) (st : State)
    (hattach : attachStatus = 0)
    (hdef : ∀ c ∈ calls jarray.length (jarray.map some), c.Defined) :
    ∃ (history : List CallbackEvent) (before : List LogLine), ∀ s : Int,
      Java_com_wandroid_traceroute_TraceRoute_execute attachStatus
          (fun argc argv => ⟨calls argc argv, .exit s⟩) jthis jarray st
        = .done (-3)
            { j_java_cls := none, j_argvs := none, exec_status := -3, attached := false,
              callback := history,
              log := before ++ [.errorExit s, .finishTraceroute (-3)],
              execCalls := st.execCalls ++ [(jarray.length, jarray.map some)] } := by
  subst hattach
  refine ⟨(engineEntry jthis jarray st).callback
      ++ deliveredAll jthis (calls jarray.length (jarray.map some)),
    (engineEntry jthis jarray st).log
      ++ loggedAll jthis (calls jarray.length (jarray.map some)), ?_⟩
  intro s
  rw [execute_attached,
    exec_exits (fun argc argv => ⟨calls argc argv, .exit s⟩) _ _ jthis
      (engineEntry jthis jarray st) s rfl rfl rfl hdef]
  simp [Run.bind, pthread_join, engineEntry]

/-- C8 (witness): an engine that reports an error through `fprintf` and calls
`exit(0)` makes `execute` return -3. -/
theorem exit_status_never_reaches_caller_witness :
    ∃ (history : List CallbackEvent) (before : List LogLine),
      Java_com_wandroid_traceroute_TraceRoute_execute 0
          (fun _ _ => ⟨[.fprintf .stderr (.text [98, 97, 100])], .exit 0⟩)
          ⟨true, true⟩ [[56]] State.initial
        = .done (-3)
            { j_java_cls := none, j_argvs := none, exec_status := -3, attached := false,
              callback := history,
              log := before ++ [.errorExit 0, .finishTraceroute (-3)],
              execCalls := [(1, [some [56]])] } :=
  match exit_status_never_reaches_caller 0 (fun _ _ => [.fprintf .stderr (.text [98, 97, 100])])
      ⟨true, true⟩ [[56]] State.initial rfl (by decide) with
  | ⟨history, before, h⟩ => ⟨history, before, h 0⟩

/-- C9 (evaluation at the failing input): for a message of exactly
`OUTPUT_LENGTH` bytes `vsnprintf` returns `cnt = 10000`, the first index past
the buffer, and on an encoding error `cnt = -1`; neither index is inside the
buffer, and `printf`, `fprintf` and `vfprintf` reach the out-of-bounds store. -/
theorem nul_store_out_of_bounds :
    (formatBuffer (.text (List.replicate 10000 65))).1.length = 10000
      ∧ nulIndex (.text (List.replicate 10000 65)) = 10000
      ∧ ¬ InBounds (.text (List.replicate 10000 65))
      ∧ nulIndex .encodingError = -1
      ∧ ¬ InBounds .encodingError
      ∧ (∀ st, printf (.text (List.replicate 10000 65)) st = .halt .undefinedBehaviour st)
      ∧ (∀ fp st, fprintf fp (.text (List.replicate 10000 65)) st
          = .halt .undefinedBehaviour st)
      ∧ (∀ fp st, vfprintf fp (.text (List.replicate 10000 65)) st
          = .halt .undefinedBehaviour st) := by
  have hlen : OUTPUT_LENGTH ≤ (List.replicate 10000 65).length := by
    rw [List.length_replicate]; decide
  have hf := formatted_long (List.replicate 10000 65) hlen
  have hnb : ¬ InBounds (.text (List.replicate 10000 65)) := by
    rw [inBounds_text_iff]; omega
  refine ⟨?_, ?_, hnb, by decide, not_inBounds_encodingError, ?_, ?_, ?_⟩
  · rw [formatBuffer_length]; rfl
  · unfold nulIndex
    rw [formatBuffer_cnt, List.length_replicate]
    rfl
  · intro st; exact printf_undefined _ hf st
  · intro fp st; exact fprintf_undefined fp _ hf st
  · intro fp st; exact vfprintf_undefined fp _ hf st

/-- C10: the engine is called with `argc` the length of the argument array
and `argv` holding the array's elements in their order, nothing dropped,
repeated or added: once when the thread attaches, however the engine's run
ends, and not at all when the attach fails. -/
theorem do_execute_passes_arguments (attachStatus : Int) (engine : Engine) (jthis : JObject)
    (jarray : List Text) (st : State) :
    (Java_com_wandroid_traceroute_TraceRoute_execute attachStatus
        engine jthis jarray st).state.execCalls
      = st.execCalls
        ++ (if attachStatus = 0 then [(jarray.length, jarray.map some)] else []) := by
  by_cases h : attachStatus = 0
  · subst h
    rw [(execute_attached_state engine jthis jarray st).2, exec_execCalls]
    rfl
  · rw [execute_attach_failed attachStatus h]
    simp [Run.state, h]

end Traceroute
